import Mathlib

/-!
Verification of the stream-resolution pipeline of `tuiflix`
(`internal/api/client.go`): descriptor normalization (`buildMagnet`),
file selection (`pickFileID`), the real-debrid unlock pipeline
(`resolveMagnet` and its polling loops), and the orchestrating
`ResolvePlayableURL`.

Go strings are modelled as Lean `String`s (lists of characters);
`strings.ToLower` is modelled on the ASCII range, which covers every
string class the pipeline lowercases (hex info-hashes, URL scheme
prefixes, file extensions).  Machine integers (`int`, `int64`) are
modelled as `Int`: the code performs no arithmetic on them, so overflow
cannot occur.  The remote HTTP service is modelled as an explicit
oracle of responses; effectful functions return `Except` together with
an explicit trace of the requests they issue.
-/

namespace Tuiflix

/-- Membership in the set of code points Go's `unicode.IsSpace` accepts
(`\t \n \v \f \r`, space, NEL, NBSP and the Unicode space separators). -/
def goIsSpace (c : Char) : Bool :=
  let n := c.toNat
  n == 9 || n == 10 || n == 11 || n == 12 || n == 13 || n == 32 ||
  n == 0x85 || n == 0xA0 || n == 0x1680 ||
  (0x2000 ≤ n && n ≤ 0x200A) ||
  n == 0x2028 || n == 0x2029 || n == 0x202F || n == 0x205F || n == 0x3000

/-- Go `strings.ToLower`, restricted to ASCII case mapping. -/
def goToLower (s : String) : String :=
  String.mk (s.data.map Char.toLower)

/-- Go `strings.HasPrefix`. -/
def goHasPfx (s pre : String) : Bool :=
  pre.data.isPrefixOf s.data

/-- Go `strings.HasSuffix`. -/
def goHasSfx (s suf : String) : Bool :=
  suf.data.isSuffixOf s.data

/-- Go `strings.TrimPrefix`: drop `pre` from the front of `s` when it is
a prefix, otherwise return `s` unchanged. -/
def goTrimPfx (s pre : String) : String :=
  if goHasPfx s pre then String.mk (s.data.drop pre.data.length) else s

/-- Trim `goIsSpace` characters from both ends of a character list. -/
def trimChars (l : List Char) : List Char :=
  ((l.dropWhile goIsSpace).reverse.dropWhile goIsSpace).reverse

/-- Go `strings.TrimSpace`. -/
def goTrimSpace (s : String) : String :=
  String.mk (trimChars s.data)

/-- UTF-8 encoding of one character, as a list of byte values. -/
def utf8Bytes (c : Char) : List Nat :=
  let n := c.toNat
  if n < 0x80 then [n]
  else if n < 0x800 then [0xC0 + n / 64, 0x80 + n % 64]
  else if n < 0x10000 then
    [0xE0 + n / 4096, 0x80 + (n / 64) % 64, 0x80 + n % 64]
  else
    [0xF0 + n / 0x40000, 0x80 + (n / 4096) % 64,
     0x80 + (n / 64) % 64, 0x80 + n % 64]

/-- The UTF-8 byte values of a string. -/
def strBytes (s : String) : List Nat :=
  (s.data.map utf8Bytes).flatten

/-- Bytes Go's `url.QueryEscape` leaves unescaped: ASCII alphanumerics
and `-` `_` `.` `~`. -/
def isUnreservedByte (b : Nat) : Bool :=
  (65 ≤ b && b ≤ 90) || (97 ≤ b && b ≤ 122) || (48 ≤ b && b ≤ 57) ||
  b == 45 || b == 95 || b == 46 || b == 126

/-- Upper-case hexadecimal digit for a value below 16. -/
def hexDigitUpper (n : Nat) : Char :=
  if n < 10 then Char.ofNat (48 + n) else Char.ofNat (55 + n)

/-- Escape one byte the way Go's `url.QueryEscape` does: unreserved
bytes pass through, a space becomes `+`, everything else `%XX`. -/
def escapeByte (b : Nat) : List Char :=
  if isUnreservedByte b then [Char.ofNat b]
  else if b == 32 then ['+']
  else ['%', hexDigitUpper (b / 16), hexDigitUpper (b % 16)]

/-- Go `url.QueryEscape` over the UTF-8 bytes of `s`. -/
def queryEscape (s : String) : String :=
  String.mk ((strBytes s).map escapeByte).flatten

/-- `api.Stream`: one stream candidate handed to the resolver. -/
structure Stream where
  name : String
  title : String
  url : String
  infoHash : String
  fileIdx : Option Int
  sources : List String
  deriving Repr, DecidableEq

/-- One entry of `torrentInfo.Files`. -/
structure TorrentFileEntry where
  id : Int
  path : String
  bytes : Int
  deriving Repr, DecidableEq

/-- `api.torrentInfo`: one status-poll payload of the unlock service. -/
structure torrentInfo where
  status : String
  files : List TorrentFileEntry
  links : List String
  deriving Repr, DecidableEq

/-- The file extensions `isLikelyVideo` accepts. -/
def videoExts : List String :=
  [".mkv", ".mp4", ".avi", ".mov", ".m4v", ".wmv", ".webm", ".ts"]

/-- `api.isLikelyVideo`: does the lowercased path end in a video
extension? -/
def isLikelyVideo (filePath : String) : Bool :=
  let lower := goToLower filePath
  videoExts.any (fun ext => goHasSfx lower ext)

/-- The tracker-collecting loop of `api.buildMagnet`: walk the sources,
keep entries prefixed `tracker:`, trim the value, drop empties, skip
values already seen, and append `&tr=<escaped value>` to the magnet
accumulator. -/
def buildMagnetLoop : List String → List String → String → String
  | [], _, magnet => magnet
  | source :: rest, seen, magnet =>
    if !goHasPfx source "tracker:" then buildMagnetLoop rest seen magnet
    else
      let tracker := goTrimSpace (goTrimPfx source "tracker:")
      if tracker = "" then buildMagnetLoop rest seen magnet
      else if tracker ∈ seen then buildMagnetLoop rest seen magnet
      else buildMagnetLoop rest (tracker :: seen)
        (magnet ++ "&tr=" ++ queryEscape tracker)

/-- `api.buildMagnet`: synthesize a magnet URI from an info-hash and
`tracker:`-prefixed source entries; empty when the info-hash is empty. -/
def buildMagnet (stream : Stream) : String :=
  if stream.infoHash = "" then ""
  else
    buildMagnetLoop stream.sources []
      ("magnet:?xt=urn:btih:" ++ goToLower stream.infoHash)

/-- The best-video loop of `api.pickFileID`: running `(bestID,
bestBytes)` state, updated on every video-like file whose size strictly
exceeds the running maximum. -/
def pickLoop : List TorrentFileEntry → Int → Int → Int × Int
  | [], bestID, bestBytes => (bestID, bestBytes)
  | file :: rest, bestID, bestBytes =>
    if isLikelyVideo file.path ∧ file.bytes > bestBytes then
      pickLoop rest file.id file.bytes
    else
      pickLoop rest bestID bestBytes

/-- `api.pickFileID` on an explicit file list (`info.Files`), with the
head of the list in scope. -/
def pickFileAux : List TorrentFileEntry → Option Int → Int
  | [], _ => 0
  | f₀ :: rest, fileIdx =>
    let files := f₀ :: rest
    let explicit : Option Int :=
      match fileIdx with
      | some idx =>
        if 0 ≤ idx ∧ idx < (files.length : Int) then
          some (files.getD idx.toNat f₀).id
        else none
      | none => none
    match explicit with
    | some r => r
    | none =>
      let best := pickLoop files 0 (-1)
      if best.1 ≠ 0 then best.1 else f₀.id

/-- `api.pickFileID`: explicit index wins when in range, else the
largest video-like file, else the first file; 0 on an empty manifest. -/
def pickFileID (info : torrentInfo) (fileIdx : Option Int) : Int :=
  pickFileAux info.files fileIdx

/-- The errors the unlock pipeline produces.  Each constructor stands
for one `errors.New`/`fmt.Errorf` site of `client.go` (or the
context-cancellation error of the Go runtime). -/
inductive RDError where
  /-- `real-debrid request failed (<status>): <body>` from `getJSON` /
  `postForm` on a status of 300 or above. -/
  | remote (status : Nat) (body : List Nat)
  /-- `real-debrid returned empty torrent id` in `addMagnet`. -/
  | emptyTorrentID
  /-- `failed to pick torrent file` in `resolveMagnet`. -/
  | pickFailed
  /-- `select files requires at least one file` in `selectFiles`. -/
  | selectEmpty
  /-- `torrent has no links` in `resolveMagnet`. -/
  | noLinks
  /-- `real-debrid returned empty download link` in `unrestrictLink`. -/
  | emptyDownload
  /-- `torrent metadata did not become available` in
  `waitForTorrentInfo`. -/
  | metadataTimeout
  /-- `timeout waiting for debrid links` in `waitForReadyLinks`. -/
  | linksTimeout
  /-- `ctx.Err()` observed in a polling loop. -/
  | cancelled
  /-- `stream does not include a playable URL` in `ResolvePlayableURL`. -/
  | noPlayableSource
  /-- a transport-level failure (`http.Client.Do` error) or a JSON
  decode failure of a decoded endpoint. -/
  | transport
  deriving Repr, DecidableEq

/-- One HTTP response, at the level the status check inspects: the
numeric status code and the raw body bytes. -/
structure HTTPResp where
  status : Nat
  body : List Nat
  deriving Repr, DecidableEq

/-- Is a byte an ASCII whitespace byte?  (Byte-level rendering of the
`strings.TrimSpace` applied to the captured error body; bodies are
treated as ASCII text.) -/
def byteIsSpace (b : Nat) : Bool :=
  b == 9 || b == 10 || b == 11 || b == 12 || b == 13 || b == 32

/-- Trim ASCII whitespace bytes from both ends of a byte list. -/
def trimBytes (l : List Nat) : List Nat :=
  ((l.dropWhile byteIsSpace).reverse.dropWhile byteIsSpace).reverse

/-- The shared response-status check of `realDebrid.getJSON` and
`realDebrid.postForm`: a status of 300 or above yields the
`real-debrid request failed` error carrying the status and the body
read through `io.LimitReader(resp.Body, 2048)` and trimmed; any other
status passes. -/
def rdStatusCheck (resp : HTTPResp) : Except RDError Unit :=
  if resp.status ≥ 300 then
    .error (.remote resp.status (trimBytes (resp.body.take 2048)))
  else
    .ok ()

/-- Oracle fixing the remote unlock service's behaviour for one
resolution attempt.  Decoded endpoints (`addMagnet`, `torrentInfo`,
`unrestrictLink`) are modelled at the decoded-payload level (an error
covers non-2xx, transport and decode failures); the `selectFiles`
request, whose body is discarded, is modelled at the HTTP level:
`selectResp = none` is a transport-level failure of `http.Do` (no
response delivered at all), `some resp` a delivered response.
`infoResp n` is the answer to the n-th status poll of the attempt
(both polling loops draw from the same counter), and `cancelAt n`
says whether the external cancellation signal fires during the
inter-attempt wait that follows poll `n`. -/
structure RDOracle where
  addMagnetResp : Except RDError String
  infoResp : Nat → Except RDError torrentInfo
  selectResp : Option HTTPResp
  unrestrictResp : Except RDError String
  cancelAt : Nat → Bool

/-- `realDebrid.addMagnet`: post the magnet, fail on an empty returned
torrent id. -/
def addMagnetM (o : RDOracle) (_magnet : String) : Except RDError String :=
  match o.addMagnetResp with
  | .error e => .error e
  | .ok torrentID =>
    if torrentID = "" then .error .emptyTorrentID else .ok torrentID

/-- `realDebrid.selectFiles`: refuse an empty id list before any
request; otherwise post the form — the transport itself can fail
(`http.Do` error, no response), else the outcome is the status check
of the delivered response. -/
def selectFilesM (o : RDOracle) (fileIDs : List Int) : Except RDError Unit :=
  if fileIDs.length = 0 then .error .selectEmpty
  else
    match o.selectResp with
    | none => .error .transport
    | some resp => rdStatusCheck resp

/-- `realDebrid.unrestrictLink`: post the link, fail on an empty
`download` field. -/
def unrestrictLinkM (o : RDOracle) (_link : String) : Except RDError String :=
  match o.unrestrictResp with
  | .error e => .error e
  | .ok download =>
    if download = "" then .error .emptyDownload else .ok download

/-- The polling loop shared by `waitForTorrentInfo` and
`waitForReadyLinks`: up to `fuel` polls starting at poll index `i`.
Each iteration polls once; a poll error is returned at once, a ready
payload is returned at once, otherwise the loop waits — returning the
cancellation error if the signal fires during the wait — and retries.
Exhausted fuel yields `timeoutErr`.  The second component counts the
polls issued. -/
def waitLoop (poll : Nat → Except RDError torrentInfo)
    (cancelAt : Nat → Bool) (ready : torrentInfo → Bool)
    (timeoutErr : RDError) :
    Nat → Nat → Except RDError torrentInfo × Nat
  | 0, _ => (.error timeoutErr, 0)
  | fuel + 1, i =>
    match poll i with
    | .error e => (.error e, 1)
    | .ok info =>
      if ready info then (.ok info, 1)
      else if cancelAt i then (.error .cancelled, 1)
      else
        let r := waitLoop poll cancelAt ready timeoutErr fuel (i + 1)
        (r.1, r.2 + 1)

/-- `realDebrid.waitForTorrentInfo`: at most 8 polls for a non-empty
file manifest, 1.2s apart, timing out with the metadata-timeout
error. -/
def waitForTorrentInfo (o : RDOracle) (start : Nat) :
    Except RDError torrentInfo × Nat :=
  waitLoop o.infoResp o.cancelAt (fun info => decide (0 < info.files.length))
    .metadataTimeout 8 start

/-- `realDebrid.waitForReadyLinks`: at most 30 polls for a non-empty
link list, 1.5s apart, timing out with the links-timeout error. -/
def waitForReadyLinks (o : RDOracle) (start : Nat) :
    Except RDError torrentInfo × Nat :=
  waitLoop o.infoResp o.cancelAt (fun info => decide (0 < info.links.length))
    .linksTimeout 30 start

/-- The requests one `resolveMagnet` attempt issues: how many
register (`addMagnet`) posts, how many status polls, the file-id list
of each `selectFiles` post, and how many `unrestrict` posts. -/
structure Trace where
  addCount : Nat
  pollCount : Nat
  selectCalls : List (List Int)
  unrestrictCount : Nat
  deriving Repr, DecidableEq

/-- `realDebrid.resolveMagnet`: register the magnet, wait for
metadata, pick a file (0 is a hard stop), select it, wait for a ready
link, unrestrict the first link.  Every step's error aborts the
attempt.  Returns the result together with the request trace. -/
def resolveMagnetM (o : RDOracle) (magnet : String) (fileIdx : Option Int) :
    Except RDError String × Trace :=
  match addMagnetM o magnet with
  | .error e => (.error e, ⟨1, 0, [], 0⟩)
  | .ok _torrentID =>
    match waitForTorrentInfo o 0 with
    | (.error e, polls₁) => (.error e, ⟨1, polls₁, [], 0⟩)
    | (.ok info, polls₁) =>
      let selectedFileID := pickFileID info fileIdx
      if selectedFileID = 0 then (.error .pickFailed, ⟨1, polls₁, [], 0⟩)
      else
        match selectFilesM o [selectedFileID] with
        | .error e => (.error e, ⟨1, polls₁, [[selectedFileID]], 0⟩)
        | .ok _ =>
          match waitForReadyLinks o polls₁ with
          | (.error e, polls₂) =>
            (.error e, ⟨1, polls₁ + polls₂, [[selectedFileID]], 0⟩)
          | (.ok ready, polls₂) =>
            match ready.links with
            | [] => (.error .noLinks, ⟨1, polls₁ + polls₂, [[selectedFileID]], 0⟩)
            | link :: _ =>
              match unrestrictLinkM o link with
              | .error e =>
                (.error e, ⟨1, polls₁ + polls₂, [[selectedFileID]], 1⟩)
              | .ok download =>
                (.ok download, ⟨1, polls₁ + polls₂, [[selectedFileID]], 1⟩)

/-- The `api.Client` as the resolver sees it: the (trimmed) real-debrid
token and the oracle for the remote service. -/
structure ClientOracle where
  token : String
  rd : RDOracle

/-- `realDebrid.enabled`: a non-blank token enables the unlock
service. -/
def rdEnabled (co : ClientOracle) : Bool :=
  goTrimSpace co.token != ""

/-- The canonical magnet string of a stream, as computed inside
`ResolvePlayableURL`: the raw URL itself when it carries the `magnet:`
scheme, else the synthesized magnet. -/
def magnetOf (stream : Stream) : String :=
  if goHasPfx (goToLower stream.url) "magnet:" then stream.url
  else buildMagnet stream

/-- `Client.ResolvePlayableURL`: direct `http` URLs pass through
(optionally unrestricted, falling back to the raw URL on any unlock
failure); otherwise the magnet is computed, its emptiness is the only
hard failure, and with unlock enabled the full pipeline runs, falling
back to the magnet itself on any pipeline failure. -/
def ResolvePlayableURL (co : ClientOracle) (stream : Stream) :
    Except RDError String :=
  if stream.url ≠ "" ∧ goHasPfx (goToLower stream.url) "http" then
    if !rdEnabled co then .ok stream.url
    else
      match unrestrictLinkM co.rd stream.url with
      | .error _ => .ok stream.url
      | .ok link => .ok link
  else
    let magnet := magnetOf stream
    if magnet = "" then .error .noPlayableSource
    else if !rdEnabled co then .ok magnet
    else
      match (resolveMagnetM co.rd magnet stream.fileIdx).1 with
      | .error _ => .ok magnet
      | .ok link => .ok link

/-! ### Spec-side formulations of the magnet-synthesis rule -/

/-- The spec's magnet rule taken literally: the tracker value of each
source entry literally prefixed `tracker:` (the raw remainder, no
trimming, no dropping of empties), in first-seen order, deduplicated
by exact string equality against the values already seen. -/
def specTrackerValsC2 : List String → List String → List String
  | [], _ => []
  | source :: rest, seen =>
    if goHasPfx source "tracker:" then
      let tracker := goTrimPfx source "tracker:"
      if tracker ∈ seen then specTrackerValsC2 rest seen
      else tracker :: specTrackerValsC2 rest (tracker :: seen)
    else specTrackerValsC2 rest seen

/-- Concatenated `&tr=<url-encoded value>` parameters for a list of
tracker values. -/
def trParams : List String → String
  | [] => ""
  | t :: ts => "&tr=" ++ queryEscape t ++ trParams ts

/-- The magnet string claim C2 predicts, following its words exactly:
`magnet:?xt=urn:btih:` + lowercased info-hash + one `&tr=` per
distinct raw tracker value; empty for an empty info-hash. -/
def buildMagnetSpecC2 (stream : Stream) : String :=
  if stream.infoHash = "" then ""
  else
    "magnet:?xt=urn:btih:" ++ goToLower stream.infoHash ++
      trParams (specTrackerValsC2 stream.sources [])

/-- The tracker value a single source entry contributes under the
amended rule: entries prefixed `tracker:` yield their remainder with
surrounding whitespace trimmed, except that a value empty after
trimming is dropped. -/
def trackerOf (source : String) : Option String :=
  if goHasPfx source "tracker:" then
    let tracker := goTrimSpace (goTrimPfx source "tracker:")
    if tracker = "" then none else some tracker
  else none

/-- First-seen-order deduplication: keep a value unless it was already
seen. -/
def dedupAux : List String → List String → List String
  | [], _ => []
  | x :: xs, seen =>
    if x ∈ seen then dedupAux xs seen
    else x :: dedupAux xs (x :: seen)

/-- The distinct trimmed tracker values of a source list, in first-seen
order. -/
def trackerVals (sources : List String) : List String :=
  dedupAux (sources.filterMap trackerOf) []

/-- The amended magnet rule: like C2's, but each tracker value is
trimmed of surrounding whitespace before use, values empty after
trimming are dropped, and deduplication compares trimmed values. -/
def buildMagnetAmended (stream : Stream) : String :=
  if stream.infoHash = "" then ""
  else
    "magnet:?xt=urn:btih:" ++ goToLower stream.infoHash ++
      trParams (trackerVals stream.sources)

/-! ### String helper lemmas -/

theorem goHasPfx_append (pre x : String) : goHasPfx (pre ++ x) pre = true := by
  simp [goHasPfx, String.data_append, List.isPrefixOf_iff_prefix,
    List.prefix_append]

theorem goTrimPfx_append (pre x : String) : goTrimPfx (pre ++ x) pre = x := by
  simp [goTrimPfx, goHasPfx_append, String.data_append, List.drop_left]

theorem trackerOf_append (x : String) :
    trackerOf ("tracker:" ++ x) =
      (if goTrimSpace x = "" then none else some (goTrimSpace x)) := by
  simp [trackerOf, goHasPfx_append, goTrimPfx_append]

/-! ### The code's magnet loop equals the spec's pipeline -/

theorem buildMagnetLoop_eq (sources seen : List String) (acc : String) :
    buildMagnetLoop sources seen acc =
      acc ++ trParams (dedupAux (sources.filterMap trackerOf) seen) := by
  induction sources generalizing seen acc with
  | nil => simp [buildMagnetLoop, dedupAux, trParams]
  | cons source rest ih =>
    by_cases hp : goHasPfx source "tracker:"
    · by_cases he : goTrimSpace (goTrimPfx source "tracker:") = ""
      · simp [buildMagnetLoop, hp, he, trackerOf, List.filterMap_cons, ih]
      · by_cases hs : goTrimSpace (goTrimPfx source "tracker:") ∈ seen
        · simp [buildMagnetLoop, hp, he, hs, trackerOf, List.filterMap_cons,
            dedupAux, ih]
        · simp [buildMagnetLoop, hp, he, hs, trackerOf, List.filterMap_cons,
            dedupAux, ih, trParams, String.append_assoc]
    · simp [buildMagnetLoop, hp, trackerOf, List.filterMap_cons, ih]

theorem buildMagnet_eq_amended (stream : Stream) :
    buildMagnet stream = buildMagnetAmended stream := by
  unfold buildMagnet buildMagnetAmended trackerVals
  by_cases h : stream.infoHash = "" <;> simp [h, buildMagnetLoop_eq]

/-! ### Whitespace-trimming lemmas -/

theorem dropWhile_append_all {α : Type} {p : α → Bool} {w l : List α}
    (hw : ∀ c ∈ w, p c = true) : (w ++ l).dropWhile p = l.dropWhile p := by
  induction w with
  | nil => rfl
  | cons c cs ih =>
    simp only [List.cons_append, List.dropWhile_cons, hw c (by simp),
      if_pos]
    exact ih fun d hd => hw d (by simp [hd])

theorem dropWhile_all {α : Type} {p : α → Bool} {w : List α}
    (hw : ∀ c ∈ w, p c = true) : w.dropWhile p = [] := by
  have := dropWhile_append_all (l := ([] : List α)) hw
  simpa using this

theorem trim_fix_parts {l : List Char} (h : trimChars l = l) :
    l.dropWhile goIsSpace = l ∧ l.reverse.dropWhile goIsSpace = l.reverse := by
  unfold trimChars at h
  have hul : (l.dropWhile goIsSpace).length ≤ l.length :=
    (List.dropWhile_suffix _).sublist.length_le
  have hvu :
      ((l.dropWhile goIsSpace).reverse.dropWhile goIsSpace).length ≤
        (l.dropWhile goIsSpace).length := by
    have := (List.dropWhile_suffix
      (l := (l.dropWhile goIsSpace).reverse) goIsSpace).sublist.length_le
    simpa using this
  have hlen : l.length ≤ (l.dropWhile goIsSpace).length := by
    conv_lhs => rw [← h]
    simpa using hvu
  have hu : l.dropWhile goIsSpace = l :=
    (List.dropWhile_suffix _).sublist.eq_of_length (le_antisymm hul hlen)
  refine ⟨hu, ?_⟩
  rw [hu] at h
  rw [List.reverse_eq_iff] at h
  exact h

theorem head_not_space {l : List Char} (hfix : l.dropWhile goIsSpace = l)
    (hne : l ≠ []) : ∃ c rest, l = c :: rest ∧ goIsSpace c = false := by
  cases l with
  | nil => exact absurd rfl hne
  | cons c rest =>
    by_cases hc : goIsSpace c
    · exfalso
      rw [List.dropWhile_cons, if_pos hc] at hfix
      have hle : (rest.dropWhile goIsSpace).length ≤ rest.length :=
        (List.dropWhile_suffix _).sublist.length_le
      have := congrArg List.length hfix
      simp at this
      omega
    · exact ⟨c, rest, rfl, by simpa using hc⟩

theorem trimChars_pad {w₁ w₂ t : List Char}
    (h1 : ∀ c ∈ w₁, goIsSpace c = true) (h2 : ∀ c ∈ w₂, goIsSpace c = true)
    (hfix : trimChars t = t) (hne : t ≠ []) :
    trimChars (w₁ ++ t ++ w₂) = t := by
  obtain ⟨hdrop, hdropR⟩ := trim_fix_parts hfix
  obtain ⟨c, rest, hct, hc⟩ := head_not_space hdrop hne
  unfold trimChars
  rw [List.append_assoc, dropWhile_append_all h1]
  have hfront : (t ++ w₂).dropWhile goIsSpace = t ++ w₂ := by
    rw [hct]
    simp [List.dropWhile_cons, hc]
  rw [hfront, List.reverse_append,
    dropWhile_append_all (fun d hd => h2 d (List.mem_reverse.mp hd)),
    hdropR, List.reverse_reverse]

theorem goTrimSpace_all_space {ws : String}
    (hw : ∀ c ∈ ws.data, goIsSpace c = true) : goTrimSpace ws = "" := by
  unfold goTrimSpace trimChars
  rw [dropWhile_all hw]
  rfl

theorem string_ne_of_data {t : String} (hne : t ≠ "") : t.data ≠ [] := by
  intro h
  apply hne
  cases t
  simp_all

theorem goTrimSpace_pad {ws₁ ws₂ t : String}
    (h1 : ∀ c ∈ ws₁.data, goIsSpace c = true)
    (h2 : ∀ c ∈ ws₂.data, goIsSpace c = true)
    (hfix : goTrimSpace t = t) (hne : t ≠ "") :
    goTrimSpace (ws₁ ++ t ++ ws₂) = t := by
  have hfix' : trimChars t.data = t.data := congrArg String.data hfix
  have hne' : t.data ≠ [] := string_ne_of_data hne
  unfold goTrimSpace
  rw [String.data_append, String.data_append,
    trimChars_pad h1 h2 hfix' hne']

theorem dedupAux_dup (L₁ L₂ : List String) (t : String) (seen : List String) :
    dedupAux (L₁ ++ t :: t :: L₂) seen = dedupAux (L₁ ++ t :: L₂) seen := by
  induction L₁ generalizing seen with
  | nil =>
    by_cases h : t ∈ seen <;> simp [dedupAux, h, List.mem_cons]
  | cons x L₁ ih =>
    by_cases h : x ∈ seen <;> simp [dedupAux, h, ih]

/-! ### File-selector lemmas -/

theorem pickLoop_append (a b : List TorrentFileEntry) (bID bB : Int) :
    pickLoop (a ++ b) bID bB =
      pickLoop b (pickLoop a bID bB).1 (pickLoop a bID bB).2 := by
  induction a generalizing bID bB with
  | nil => rfl
  | cons f rest ih =>
    by_cases h : isLikelyVideo f.path ∧ f.bytes > bB <;>
      simp [pickLoop, h, ih]

theorem pickLoop_noUpdate {l : List TorrentFileEntry} {bID bB : Int}
    (h : ∀ f ∈ l, isLikelyVideo f.path = true → f.bytes ≤ bB) :
    pickLoop l bID bB = (bID, bB) := by
  induction l with
  | nil => rfl
  | cons f rest ih =>
    have hf : ¬(isLikelyVideo f.path ∧ f.bytes > bB) := by
      rintro ⟨hv, hgt⟩
      exact absurd hgt (not_lt.mpr (h f (by simp) hv))
    rw [pickLoop, if_neg hf]
    exact ih fun g hg => h g (by simp [hg])

theorem pickLoop_lt {l : List TorrentFileEntry} {bID bB c : Int}
    (hb : bB < c)
    (h : ∀ f ∈ l, isLikelyVideo f.path = true → f.bytes < c) :
    (pickLoop l bID bB).2 < c := by
  induction l generalizing bID bB with
  | nil => exact hb
  | cons f rest ih =>
    by_cases hf : isLikelyVideo f.path ∧ f.bytes > bB
    · rw [pickLoop, if_pos hf]
      exact ih (h f (by simp) hf.1) fun g hg => h g (by simp [hg])
    · rw [pickLoop, if_neg hf]
      exact ih hb fun g hg => h g (by simp [hg])

theorem pickLoop_firstmax {l₁ l₂ : List TorrentFileEntry}
    {f : TorrentFileEntry}
    (hv : isLikelyVideo f.path = true)
    (h₁ : ∀ g ∈ l₁, isLikelyVideo g.path = true → g.bytes < f.bytes)
    (h₂ : ∀ g ∈ l₂, isLikelyVideo g.path = true → g.bytes ≤ f.bytes)
    (hb : -1 < f.bytes) :
    pickLoop (l₁ ++ f :: l₂) 0 (-1) = (f.id, f.bytes) := by
  rw [pickLoop_append]
  have hlt : (pickLoop l₁ 0 (-1)).2 < f.bytes := pickLoop_lt hb h₁
  rw [pickLoop, if_pos ⟨hv, hlt⟩]
  exact pickLoop_noUpdate h₂

theorem pickFileAux_some_out (f₀ : TorrentFileEntry)
    (rest : List TorrentFileEntry) (idx : Int)
    (h : ¬(0 ≤ idx ∧ idx < ((f₀ :: rest).length : Int))) :
    pickFileAux (f₀ :: rest) (some idx) = pickFileAux (f₀ :: rest) none := by
  have h' : ¬(0 ≤ idx ∧ idx < (rest.length : Int) + 1) := by simpa using h
  simp [pickFileAux, h']

theorem pickFileAux_some_in (f₀ : TorrentFileEntry)
    (rest : List TorrentFileEntry) (idx : Int)
    (h : 0 ≤ idx ∧ idx < ((f₀ :: rest).length : Int)) :
    pickFileAux (f₀ :: rest) (some idx) =
      ((f₀ :: rest).getD idx.toNat f₀).id := by
  have h' : 0 ≤ idx ∧ idx < (rest.length : Int) + 1 := by simpa using h
  simp [pickFileAux, h', List.getD]

theorem pickFileAux_none (f₀ : TorrentFileEntry)
    (rest : List TorrentFileEntry) :
    pickFileAux (f₀ :: rest) none =
      (if (pickLoop (f₀ :: rest) 0 (-1)).1 ≠ 0
       then (pickLoop (f₀ :: rest) 0 (-1)).1 else f₀.id) := by
  simp [pickFileAux]

/-! ### Polling-loop lemmas -/

theorem waitLoop_count_le (P : Nat → Except RDError torrentInfo)
    (C : Nat → Bool) (R : torrentInfo → Bool) (T : RDError) :
    ∀ fuel i, (waitLoop P C R T fuel i).2 ≤ fuel := by
  intro fuel
  induction fuel with
  | zero => intro i; simp [waitLoop]
  | succ n ih =>
    intro i
    cases hp : P i with
    | error e => simp [waitLoop, hp]
    | ok info =>
      by_cases hr : R info
      · simp [waitLoop, hp, hr]
      · by_cases hc : C i
        · simp [waitLoop, hp, hr, hc]
        · simp only [waitLoop, hp, hr, hc]
          simp only [Bool.false_eq_true, if_false]
          exact Nat.succ_le_succ (ih (i + 1))

theorem waitLoop_skip (P : Nat → Except RDError torrentInfo)
    (C : Nat → Bool) (R : torrentInfo → Bool) (T : RDError) :
    ∀ k fuel i, k ≤ fuel →
    (∀ j < k, ∃ info, P (i + j) = .ok info ∧ R info = false ∧
      C (i + j) = false) →
    waitLoop P C R T fuel i =
      ((waitLoop P C R T (fuel - k) (i + k)).1,
       (waitLoop P C R T (fuel - k) (i + k)).2 + k) := by
  intro k
  induction k with
  | zero => intro fuel i _ _; simp
  | succ k ih =>
    intro fuel i hk hpre
    obtain ⟨f', rfl⟩ : ∃ f', fuel = f' + 1 := ⟨fuel - 1, by omega⟩
    obtain ⟨info0, hp0, hr0, hc0⟩ := hpre 0 (by omega)
    simp only [Nat.add_zero] at hp0 hr0 hc0
    have hstep : waitLoop P C R T (f' + 1) i =
        ((waitLoop P C R T f' (i + 1)).1,
         (waitLoop P C R T f' (i + 1)).2 + 1) := by
      simp [waitLoop, hp0, hr0, hc0]
    have hpre' : ∀ j < k, ∃ info, P ((i + 1) + j) = .ok info ∧
        R info = false ∧ C ((i + 1) + j) = false := by
      intro j hj
      obtain ⟨info, h1, h2, h3⟩ := hpre (j + 1) (by omega)
      rw [show i + (j + 1) = (i + 1) + j by omega] at h1 h3
      exact ⟨info, h1, h2, h3⟩
    rw [hstep, ih f' (i + 1) (by omega) hpre']
    have e1 : f' + 1 - (k + 1) = f' - k := by omega
    have e2 : i + (k + 1) = (i + 1) + k := by omega
    rw [e1, e2]
    simp [Nat.add_assoc]

theorem waitLoop_timeout (P : Nat → Except RDError torrentInfo)
    (C : Nat → Bool) (R : torrentInfo → Bool) (T : RDError)
    (fuel i : Nat)
    (hpre : ∀ j < fuel, ∃ info, P (i + j) = .ok info ∧ R info = false ∧
      C (i + j) = false) :
    (waitLoop P C R T fuel i).1 = .error T := by
  rw [waitLoop_skip P C R T fuel fuel i le_rfl hpre]
  simp [waitLoop]

theorem waitLoop_stop_error (P : Nat → Except RDError torrentInfo)
    (C : Nat → Bool) (R : torrentInfo → Bool) (T : RDError)
    (k fuel i : Nat) (e : RDError) (hk : k < fuel)
    (hpre : ∀ j < k, ∃ info, P (i + j) = .ok info ∧ R info = false ∧
      C (i + j) = false)
    (hp : P (i + k) = .error e) :
    waitLoop P C R T fuel i = (.error e, k + 1) := by
  rw [waitLoop_skip P C R T k fuel i (by omega) hpre]
  obtain ⟨m, hm⟩ : ∃ m, fuel - k = m + 1 := ⟨fuel - k - 1, by omega⟩
  rw [hm]
  simp [waitLoop, hp]
  omega

theorem waitLoop_stop_ready (P : Nat → Except RDError torrentInfo)
    (C : Nat → Bool) (R : torrentInfo → Bool) (T : RDError)
    (k fuel i : Nat) (info : torrentInfo) (hk : k < fuel)
    (hpre : ∀ j < k, ∃ info, P (i + j) = .ok info ∧ R info = false ∧
      C (i + j) = false)
    (hp : P (i + k) = .ok info) (hr : R info = true) :
    waitLoop P C R T fuel i = (.ok info, k + 1) := by
  rw [waitLoop_skip P C R T k fuel i (by omega) hpre]
  obtain ⟨m, hm⟩ : ∃ m, fuel - k = m + 1 := ⟨fuel - k - 1, by omega⟩
  rw [hm]
  simp [waitLoop, hp, hr]
  omega

theorem waitLoop_stop_cancel (P : Nat → Except RDError torrentInfo)
    (C : Nat → Bool) (R : torrentInfo → Bool) (T : RDError)
    (k fuel i : Nat) (info : torrentInfo) (hk : k < fuel)
    (hpre : ∀ j < k, ∃ info, P (i + j) = .ok info ∧ R info = false ∧
      C (i + j) = false)
    (hp : P (i + k) = .ok info) (hr : R info = false)
    (hc : C (i + k) = true) :
    waitLoop P C R T fuel i = (.error .cancelled, k + 1) := by
  rw [waitLoop_skip P C R T k fuel i (by omega) hpre]
  obtain ⟨m, hm⟩ : ∃ m, fuel - k = m + 1 := ⟨fuel - k - 1, by omega⟩
  rw [hm]
  simp [waitLoop, hp, hr, hc]
  omega

/-! ### Miscellaneous helpers -/

theorem ne_empty_of_data {t : String} (h : t.data ≠ []) : t ≠ "" :=
  fun he => h (by rw [he])

theorem trimBytes_length_le (l : List Nat) :
    (trimBytes l).length ≤ l.length := by
  unfold trimBytes
  have h1 := (List.dropWhile_suffix (l := l) byteIsSpace).sublist.length_le
  have h2 := (List.dropWhile_suffix
    (l := (l.dropWhile byteIsSpace).reverse) byteIsSpace).sublist.length_le
  simp at h2 ⊢
  omega

theorem buildMagnet_sources_congr (stream : Stream) (A B : List String)
    (h : trackerVals A = trackerVals B) :
    buildMagnet { stream with sources := A }
      = buildMagnet { stream with sources := B } := by
  rw [buildMagnet_eq_amended, buildMagnet_eq_amended]
  unfold buildMagnetAmended
  simp [h]

theorem url_ne_of_pfx {s p : String} (h : goHasPfx (goToLower s) p = true)
    (hp : p.data ≠ []) : s ≠ "" := by
  intro he
  subst he
  cases hd : p.data with
  | nil => exact hp hd
  | cons c cs =>
    rw [goHasPfx, hd] at h
    simp [goToLower, List.isPrefixOf] at h

theorem buildMagnet_ne_empty {stream : Stream} (h : stream.infoHash ≠ "") :
    buildMagnet stream ≠ "" := by
  unfold buildMagnet
  rw [if_neg h, buildMagnetLoop_eq]
  apply ne_empty_of_data
  rw [String.data_append, String.data_append]
  have hm : ("magnet:?xt=urn:btih:" : String).data ≠ [] := by decide
  exact List.append_ne_nil_of_left_ne_nil
    (List.append_ne_nil_of_left_ne_nil hm _) _

/-! ### Claim theorems -/

/-- Claim C2, counterexample: the claim's literal rule — one `&tr=` per
distinct source entry literally prefixed `tracker:`, the tracker value
taken as the raw remainder — disagrees with `buildMagnet` on the source
entry `"tracker:"`, whose (empty) tracker value the code silently
drops while the literal rule emits `&tr=`. -/
theorem C2_magnet_counterexample :
    buildMagnetSpecC2 ⟨"", "", "", "ABCDEF", none, ["tracker:"]⟩
        = "magnet:?xt=urn:btih:abcdef&tr=" ∧
    buildMagnet ⟨"", "", "", "ABCDEF", none, ["tracker:"]⟩
        = "magnet:?xt=urn:btih:abcdef" ∧
    buildMagnet ⟨"", "", "", "ABCDEF", none, ["tracker:"]⟩
        ≠ buildMagnetSpecC2 ⟨"", "", "", "ABCDEF", none, ["tracker:"]⟩ ∧
    buildMagnetSpecC2 ⟨"", "", "", "ABCDEF", none, ["tracker: B"]⟩
        = "magnet:?xt=urn:btih:abcdef&tr=+B" ∧
    buildMagnet ⟨"", "", "", "ABCDEF", none, ["tracker: B"]⟩
        = "magnet:?xt=urn:btih:abcdef&tr=B" := by
  refine ⟨by decide, by decide, by decide, by decide, by decide⟩

/-- Claim C2, amended: for every stream with non-empty infoHash,
`buildMagnet` returns `magnet:?xt=urn:btih:` + lowercased infoHash +
one `&tr=<url-encoded tracker>` per distinct source entry prefixed
`tracker:` whose value, after trimming surrounding whitespace, is
non-empty, in first-seen order, deduplicated by exact equality of the
trimmed values; for empty infoHash it returns `""`; and the claim's
concrete example holds. -/
theorem C2_magnet_synthesis :
    (∀ stream : Stream, buildMagnet stream = buildMagnetAmended stream) ∧
    buildMagnet
        ⟨"", "", "", "ABCDEF", none, ["tracker:B", "tracker:A", "tracker:B"]⟩
      = "magnet:?xt=urn:btih:abcdef&tr=B&tr=A" ∧
    (∀ stream : Stream, stream.infoHash = "" → buildMagnet stream = "") :=
  ⟨buildMagnet_eq_amended, by decide,
   fun stream h => by unfold buildMagnet; rw [if_pos h]⟩

/-- Claim C2, witness for the amended theorem's hypothesis: a stream
with empty infoHash synthesizes the empty magnet. -/
theorem C2_magnet_synthesis_witness :
    (⟨"", "", "", "", none, ["tracker:B"]⟩ : Stream).infoHash = "" ∧
    buildMagnet ⟨"", "", "", "", none, ["tracker:B"]⟩ = "" :=
  ⟨rfl, C2_magnet_synthesis.2.2 _ rfl⟩

/-- Claim C10: `buildMagnet` trims surrounding whitespace from each
tracker value, silently drops entries whose value is empty after
trimming, and deduplicates on the trimmed value, so entries differing
only in surrounding whitespace contribute one `&tr=` parameter. -/
theorem C10_tracker_trimming :
    (∀ (stream : Stream) (pre suf : List String) (ws : String),
      (∀ c ∈ ws.data, goIsSpace c = true) →
      buildMagnet { stream with sources := pre ++ ("tracker:" ++ ws) :: suf }
        = buildMagnet { stream with sources := pre ++ suf }) ∧
    (∀ (stream : Stream) (pre suf : List String) (ws₁ ws₂ t : String),
      (∀ c ∈ ws₁.data, goIsSpace c = true) →
      (∀ c ∈ ws₂.data, goIsSpace c = true) →
      goTrimSpace t = t → t ≠ "" →
      buildMagnet
          { stream with
            sources := pre ++ ("tracker:" ++ (ws₁ ++ t ++ ws₂)) :: suf }
        = buildMagnet
          { stream with sources := pre ++ ("tracker:" ++ t) :: suf }) ∧
    (∀ (stream : Stream) (pre suf : List String) (ws₁ ws₂ t : String),
      (∀ c ∈ ws₁.data, goIsSpace c = true) →
      (∀ c ∈ ws₂.data, goIsSpace c = true) →
      goTrimSpace t = t → t ≠ "" →
      buildMagnet
          { stream with
            sources := pre ++ ("tracker:" ++ (ws₁ ++ t ++ ws₂)) ::
              ("tracker:" ++ t) :: suf }
        = buildMagnet
          { stream with sources := pre ++ ("tracker:" ++ t) :: suf }) := by
  have htrim : ∀ (ws₁ ws₂ t : String),
      (∀ c ∈ ws₁.data, goIsSpace c = true) →
      (∀ c ∈ ws₂.data, goIsSpace c = true) →
      goTrimSpace t = t → t ≠ "" →
      trackerOf ("tracker:" ++ (ws₁ ++ t ++ ws₂)) = some t := by
    intro ws₁ ws₂ t h1 h2 hfix hne
    rw [trackerOf_append, goTrimSpace_pad h1 h2 hfix hne, if_neg hne]
  have hplain : ∀ t : String, goTrimSpace t = t → t ≠ "" →
      trackerOf ("tracker:" ++ t) = some t := by
    intro t hfix hne
    rw [trackerOf_append, hfix, if_neg hne]
  refine ⟨?_, ?_, ?_⟩
  · intro stream pre suf ws hws
    apply buildMagnet_sources_congr
    have hnone : trackerOf ("tracker:" ++ ws) = none := by
      rw [trackerOf_append, goTrimSpace_all_space hws, if_pos rfl]
    unfold trackerVals
    rw [List.filterMap_append, List.filterMap_cons, hnone,
      List.filterMap_append]
  · intro stream pre suf ws₁ ws₂ t h1 h2 hfix hne
    apply buildMagnet_sources_congr
    unfold trackerVals
    rw [List.filterMap_append, List.filterMap_cons,
      htrim ws₁ ws₂ t h1 h2 hfix hne,
      List.filterMap_append, List.filterMap_cons, hplain t hfix hne]
  · intro stream pre suf ws₁ ws₂ t h1 h2 hfix hne
    apply buildMagnet_sources_congr
    unfold trackerVals
    rw [List.filterMap_append, List.filterMap_cons,
      htrim ws₁ ws₂ t h1 h2 hfix hne, List.filterMap_cons,
      hplain t hfix hne,
      List.filterMap_append, List.filterMap_cons, hplain t hfix hne]
    exact dedupAux_dup _ _ _ _

/-- Claim C10, witness: `"tracker: B "` and `"tracker:B"` together
contribute exactly the single parameter of `"tracker:B"` alone. -/
theorem C10_tracker_trimming_witness :
    (∀ c ∈ (" ".data : List Char), goIsSpace c = true) ∧
    (∀ c ∈ (" ".data : List Char), goIsSpace c = true) ∧
    goTrimSpace "B" = "B" ∧ ("B" : String) ≠ "" ∧
    buildMagnet ⟨"", "", "", "ABCDEF", none, ["tracker: B ", "tracker:B"]⟩
      = buildMagnet ⟨"", "", "", "ABCDEF", none, ["tracker:B"]⟩ := by
  refine ⟨by decide, by decide, by decide, by decide, ?_⟩
  have h := C10_tracker_trimming.2.2 ⟨"", "", "", "ABCDEF", none, []⟩ [] []
    " " " " "B" (by decide) (by decide) (by decide) (by decide)
  simpa using h

/-- Claim C8, counterexample: the code's status check is
`status >= 300`, so a response with status 101 — not in the 2xx range —
is not treated as a remote error, contradicting the claim that any
non-2xx response is. -/
theorem C8_status_counterexample :
    rdStatusCheck ⟨101, []⟩ = .ok () ∧ ¬(200 ≤ 101 ∧ 101 ≤ 299) := by
  refine ⟨rfl, by decide⟩

/-- Claim C8, amended: for every request of the unlock client, a
response with status 300 or above is treated as a remote error
carrying the status code and at most 2048 bytes of the response body,
and a response with status below 300 (in particular any 2xx response)
is never treated as a remote error. -/
theorem C8_remote_error (resp : HTTPResp) :
    (300 ≤ resp.status →
      rdStatusCheck resp =
        .error (.remote resp.status (trimBytes (resp.body.take 2048))) ∧
      (trimBytes (resp.body.take 2048)).length ≤ 2048) ∧
    (resp.status < 300 → rdStatusCheck resp = .ok ()) ∧
    (200 ≤ resp.status ∧ resp.status ≤ 299 → rdStatusCheck resp = .ok ()) := by
  refine ⟨fun h => ⟨?_, ?_⟩, fun h => ?_, fun h => ?_⟩
  · rw [rdStatusCheck, if_pos h]
  · calc (trimBytes (resp.body.take 2048)).length
        ≤ (resp.body.take 2048).length := trimBytes_length_le _
      _ ≤ 2048 := by rw [List.length_take]; omega
  · rw [rdStatusCheck, if_neg (by omega)]
  · rw [rdStatusCheck, if_neg (by omega)]

/-- Claim C8, witness: a 500 response with body `" A"` yields the
remote error carrying status 500 and the (trimmed, truncated) body. -/
theorem C8_remote_error_witness :
    300 ≤ (500 : Nat) ∧
    rdStatusCheck ⟨500, [32, 65]⟩ =
      .error (.remote 500 (trimBytes (([32, 65] : List Nat).take 2048))) :=
  ⟨by decide, ((C8_remote_error ⟨500, [32, 65]⟩).1 (by decide)).1⟩

/-- Claim C3: the file selector: an in-range explicit 0-based index
returns that file's remote id unconditionally; otherwise the
video-like entry with strictly largest size wins, with the first
entry winning ties; with no video-like entry the first entry's id is
returned; an empty manifest yields 0 regardless of the explicit
index.  Stated under the data-model invariants that remote file ids
are at least 1 and sizes are non-negative. -/
theorem C3_file_selector (info : torrentInfo) (fileIdx : Option Int)
    (hid : ∀ f ∈ info.files, 1 ≤ f.id)
    (hbytes : ∀ f ∈ info.files, 0 ≤ f.bytes) :
    (info.files = [] → pickFileID info fileIdx = 0) ∧
    (∀ idx, fileIdx = some idx → 0 ≤ idx →
      idx < (info.files.length : Int) →
        pickFileID info fileIdx =
          (info.files.getD idx.toNat ⟨0, "", 0⟩).id) ∧
    ((∀ idx, fileIdx = some idx →
        ¬(0 ≤ idx ∧ idx < (info.files.length : Int))) →
      (∀ l₁ f l₂, info.files = l₁ ++ f :: l₂ →
        isLikelyVideo f.path = true →
        (∀ g ∈ l₁, isLikelyVideo g.path = true → g.bytes < f.bytes) →
        (∀ g ∈ l₂, isLikelyVideo g.path = true → g.bytes ≤ f.bytes) →
        pickFileID info fileIdx = f.id) ∧
      ((∀ g ∈ info.files, isLikelyVideo g.path = false) →
        ∀ f₀ rest, info.files = f₀ :: rest →
          pickFileID info fileIdx = f₀.id)) := by
  refine ⟨?_, ?_, fun hnotexp => ⟨?_, ?_⟩⟩
  · intro he
    rw [pickFileID, he]
    cases fileIdx <;> rfl
  · intro idx heq h0 hlt
    subst heq
    obtain ⟨f₀, rest, hcons⟩ : ∃ f₀ rest, info.files = f₀ :: rest := by
      cases h : info.files with
      | nil => rw [h] at hlt; simp at hlt; omega
      | cons a b => exact ⟨a, b, rfl⟩
    rw [pickFileID, hcons]
    rw [hcons] at hlt
    have hn' : idx.toNat < (f₀ :: rest).length := by omega
    rw [pickFileAux_some_in f₀ rest idx ⟨h0, hlt⟩]
    rw [List.getD_eq_getElem _ _ hn', List.getD_eq_getElem _ _ hn']
  · intro l₁ f l₂ hdec hv h₁ h₂
    have hfmem : f ∈ info.files := by rw [hdec]; simp
    obtain ⟨f₀, rest, hcons⟩ : ∃ f₀ rest, info.files = f₀ :: rest := by
      cases h : info.files with
      | nil => rw [h] at hdec; exact absurd hdec.symm (by simp)
      | cons a b => exact ⟨a, b, rfl⟩
    have hnone : pickFileID info fileIdx = pickFileAux (f₀ :: rest) none := by
      cases fileIdx with
      | none => rw [pickFileID, hcons]
      | some idx =>
        rw [pickFileID, hcons]
        have hout := hnotexp idx rfl
        rw [hcons] at hout
        exact pickFileAux_some_out _ _ _ hout
    rw [hnone, pickFileAux_none, ← hcons, hdec]
    have hbest : pickLoop (l₁ ++ f :: l₂) 0 (-1) = (f.id, f.bytes) :=
      pickLoop_firstmax hv h₁ h₂ (by have := hbytes f hfmem; omega)
    rw [hbest]
    have hfid : f.id ≠ 0 := by have := hid f hfmem; omega
    rw [if_pos hfid]
  · intro hvid f₀ rest hcons
    have hnone : pickFileID info fileIdx = pickFileAux (f₀ :: rest) none := by
      cases fileIdx with
      | none => rw [pickFileID, hcons]
      | some idx =>
        rw [pickFileID, hcons]
        have hout := hnotexp idx rfl
        rw [hcons] at hout
        exact pickFileAux_some_out _ _ _ hout
    rw [hnone, pickFileAux_none]
    have hnov : ∀ g ∈ f₀ :: rest, isLikelyVideo g.path = true →
        g.bytes ≤ (-1 : Int) := by
      intro g hg hgv
      have := hvid g (by rw [hcons]; exact hg)
      rw [this] at hgv
      exact absurd hgv (by simp)
    rw [pickLoop_noUpdate hnov]
    simp

/-- Claim C3, witness: with no explicit index the selector returns the
id of the largest video-like file of the spec's example manifest. -/
theorem C3_file_selector_witness :
    (∀ f ∈ ([⟨1, "a.txt", 999999⟩, ⟨2, "b.mkv", 500⟩,
        ⟨3, "c.mp4", 700⟩] : List TorrentFileEntry), 1 ≤ f.id) ∧
    pickFileID
        ⟨"", [⟨1, "a.txt", 999999⟩, ⟨2, "b.mkv", 500⟩,
          ⟨3, "c.mp4", 700⟩], []⟩ none = 3 := by
  refine ⟨by decide, ?_⟩
  have h := (C3_file_selector
    ⟨"", [⟨1, "a.txt", 999999⟩, ⟨2, "b.mkv", 500⟩, ⟨3, "c.mp4", 700⟩], []⟩
    none (by decide) (by decide)).2.2
    (fun idx h => by cases h)
  exact h.1 [⟨1, "a.txt", 999999⟩, ⟨2, "b.mkv", 500⟩] ⟨3, "c.mp4", 700⟩ []
    rfl (by decide) (by decide) (by decide)

/-- Claim C9: an out-of-range explicit index (negative or at least the
manifest length) on a non-empty manifest is silently ignored: the
result equals the call with no explicit index, and — when remote ids
are non-zero, per the data model — is never the 0 sentinel. -/
theorem C9_invalid_index_ignored (info : torrentInfo) (idx : Int)
    (hne : info.files ≠ [])
    (hout : idx < 0 ∨ (info.files.length : Int) ≤ idx) :
    pickFileID info (some idx) = pickFileID info none ∧
    ((∀ f ∈ info.files, f.id ≠ 0) → pickFileID info (some idx) ≠ 0) := by
  obtain ⟨f₀, rest, hcons⟩ : ∃ f₀ rest, info.files = f₀ :: rest := by
    cases h : info.files with
    | nil => exact absurd h hne
    | cons a b => exact ⟨a, b, rfl⟩
  rw [hcons] at hout
  have heq : pickFileID info (some idx) = pickFileID info none := by
    rw [pickFileID, pickFileID, hcons]
    exact pickFileAux_some_out _ _ _ (by omega)
  refine ⟨heq, fun hid0 => ?_⟩
  rw [heq, pickFileID, hcons, pickFileAux_none]
  by_cases hb : (pickLoop (f₀ :: rest) 0 (-1)).1 ≠ 0
  · rw [if_pos hb]; exact hb
  · rw [if_neg hb]
    exact hid0 f₀ (by rw [hcons]; simp)

/-- Claim C9, witness: index 5 on a 3-entry manifest behaves exactly
like no index and yields a non-zero id. -/
theorem C9_invalid_index_ignored_witness :
    pickFileID
        ⟨"", [⟨1, "a.txt", 999999⟩, ⟨2, "b.mkv", 500⟩,
          ⟨3, "c.mp4", 700⟩], []⟩ (some 5) =
      pickFileID
        ⟨"", [⟨1, "a.txt", 999999⟩, ⟨2, "b.mkv", 500⟩,
          ⟨3, "c.mp4", 700⟩], []⟩ none ∧
    pickFileID
        ⟨"", [⟨1, "a.txt", 999999⟩, ⟨2, "b.mkv", 500⟩,
          ⟨3, "c.mp4", 700⟩], []⟩ (some 5) ≠ 0 := by
  have h := C9_invalid_index_ignored
    ⟨"", [⟨1, "a.txt", 999999⟩, ⟨2, "b.mkv", 500⟩, ⟨3, "c.mp4", 700⟩], []⟩
    5 (by decide) (Or.inr (by decide))
  exact ⟨h.1, h.2 (by decide)⟩

/-- Claim C5: polling discipline of both wait loops: at most 8
(resp. 30) polls; a poll error is returned immediately after exactly
that poll; exhausting all attempts with empty manifests (resp. link
sets) and no cancellation yields the metadata (resp. links) timeout;
a cancellation firing during the inter-attempt wait ends the loop
with the cancellation error before any further poll; and the first
polled state with a non-empty manifest (resp. link set) is
returned. -/
theorem C5_polling_discipline (o : RDOracle) (start : Nat) :
    ((waitForTorrentInfo o start).2 ≤ 8 ∧
     (waitForReadyLinks o start).2 ≤ 30) ∧
    (∀ k e, k < 8 →
      (∀ j < k, ∃ info, o.infoResp (start + j) = .ok info ∧
        info.files = [] ∧ o.cancelAt (start + j) = false) →
      o.infoResp (start + k) = .error e →
      waitForTorrentInfo o start = (.error e, k + 1)) ∧
    ((∀ j < 8, ∃ info, o.infoResp (start + j) = .ok info ∧
        info.files = [] ∧ o.cancelAt (start + j) = false) →
      (waitForTorrentInfo o start).1 = .error .metadataTimeout) ∧
    (∀ k info, k < 8 →
      (∀ j < k, ∃ info, o.infoResp (start + j) = .ok info ∧
        info.files = [] ∧ o.cancelAt (start + j) = false) →
      o.infoResp (start + k) = .ok info → info.files = [] →
      o.cancelAt (start + k) = true →
      waitForTorrentInfo o start = (.error .cancelled, k + 1)) ∧
    (∀ k info, k < 8 →
      (∀ j < k, ∃ info, o.infoResp (start + j) = .ok info ∧
        info.files = [] ∧ o.cancelAt (start + j) = false) →
      o.infoResp (start + k) = .ok info → info.files ≠ [] →
      waitForTorrentInfo o start = (.ok info, k + 1)) ∧
    (∀ k e, k < 30 →
      (∀ j < k, ∃ info, o.infoResp (start + j) = .ok info ∧
        info.links = [] ∧ o.cancelAt (start + j) = false) →
      o.infoResp (start + k) = .error e →
      waitForReadyLinks o start = (.error e, k + 1)) ∧
    ((∀ j < 30, ∃ info, o.infoResp (start + j) = .ok info ∧
        info.links = [] ∧ o.cancelAt (start + j) = false) →
      (waitForReadyLinks o start).1 = .error .linksTimeout) ∧
    (∀ k info, k < 30 →
      (∀ j < k, ∃ info, o.infoResp (start + j) = .ok info ∧
        info.links = [] ∧ o.cancelAt (start + j) = false) →
      o.infoResp (start + k) = .ok info → info.links = [] →
      o.cancelAt (start + k) = true →
      waitForReadyLinks o start = (.error .cancelled, k + 1)) ∧
    (∀ k info, k < 30 →
      (∀ j < k, ∃ info, o.infoResp (start + j) = .ok info ∧
        info.links = [] ∧ o.cancelAt (start + j) = false) →
      o.infoResp (start + k) = .ok info → info.links ≠ [] →
      waitForReadyLinks o start = (.ok info, k + 1)) := by
  unfold waitForTorrentInfo waitForReadyLinks
  refine ⟨⟨waitLoop_count_le _ _ _ _ 8 start,
    waitLoop_count_le _ _ _ _ 30 start⟩, ?_, ?_, ?_, ?_, ?_, ?_, ?_, ?_⟩
  · intro k e hk hpre hp
    refine waitLoop_stop_error _ _ _ _ k 8 start e hk ?_ hp
    intro j hj
    obtain ⟨i2, a, b, c⟩ := hpre j hj
    exact ⟨i2, a, by simp [b], c⟩
  · intro hpre
    refine waitLoop_timeout _ _ _ _ 8 start ?_
    intro j hj
    obtain ⟨i2, a, b, c⟩ := hpre j hj
    exact ⟨i2, a, by simp [b], c⟩
  · intro k info hk hpre hp hf hc
    refine waitLoop_stop_cancel _ _ _ _ k 8 start info hk ?_ hp (by simp [hf]) hc
    intro j hj
    obtain ⟨i2, a, b, c⟩ := hpre j hj
    exact ⟨i2, a, by simp [b], c⟩
  · intro k info hk hpre hp hf
    refine waitLoop_stop_ready _ _ _ _ k 8 start info hk ?_ hp ?_
    · intro j hj
      obtain ⟨i2, a, b, c⟩ := hpre j hj
      exact ⟨i2, a, by simp [b], c⟩
    · simp only [decide_eq_true_eq]
      rw [List.length_pos]
      exact hf
  · intro k e hk hpre hp
    refine waitLoop_stop_error _ _ _ _ k 30 start e hk ?_ hp
    intro j hj
    obtain ⟨i2, a, b, c⟩ := hpre j hj
    exact ⟨i2, a, by simp [b], c⟩
  · intro hpre
    refine waitLoop_timeout _ _ _ _ 30 start ?_
    intro j hj
    obtain ⟨i2, a, b, c⟩ := hpre j hj
    exact ⟨i2, a, by simp [b], c⟩
  · intro k info hk hpre hp hf hc
    refine waitLoop_stop_cancel _ _ _ _ k 30 start info hk ?_ hp (by simp [hf]) hc
    intro j hj
    obtain ⟨i2, a, b, c⟩ := hpre j hj
    exact ⟨i2, a, by simp [b], c⟩
  · intro k info hk hpre hp hf
    refine waitLoop_stop_ready _ _ _ _ k 30 start info hk ?_ hp ?_
    · intro j hj
      obtain ⟨i2, a, b, c⟩ := hpre j hj
      exact ⟨i2, a, by simp [b], c⟩
    · simp only [decide_eq_true_eq]
      rw [List.length_pos]
      exact hf

/-- Claim C5, witness: with empty polls and the cancellation signal
firing during the wait after the second poll, the metadata loop stops
with the cancellation error after exactly 2 polls. -/
theorem C5_polling_discipline_witness :
    waitForTorrentInfo
        ⟨.ok "", fun _ => .ok ⟨"", [], []⟩, some ⟨200, []⟩, .ok "",
          fun n => decide (n = 1)⟩ 0 =
      (.error .cancelled, 2) := by
  have h := (C5_polling_discipline
    ⟨.ok "", fun _ => .ok ⟨"", [], []⟩, some ⟨200, []⟩, .ok "",
      fun n => decide (n = 1)⟩ 0).2.2.2.1
  refine h 1 ⟨"", [], []⟩ (by omega) ?_ rfl rfl rfl
  intro j hj
  refine ⟨⟨"", [], []⟩, rfl, rfl, ?_⟩
  simp only [decide_eq_false_iff_not]
  omega

/-- Full case characterization of `ResolvePlayableURL`, used by the
orchestrator claims. -/
theorem resolve_char (co : ClientOracle) (stream : Stream) :
    (goHasPfx (goToLower stream.url) "http" = true →
      (rdEnabled co = false → ResolvePlayableURL co stream = .ok stream.url) ∧
      (rdEnabled co = true →
        (∀ e, unrestrictLinkM co.rd stream.url = .error e →
          ResolvePlayableURL co stream = .ok stream.url) ∧
        (∀ link, unrestrictLinkM co.rd stream.url = .ok link →
          ResolvePlayableURL co stream = .ok link))) ∧
    (goHasPfx (goToLower stream.url) "http" = false →
      (magnetOf stream = "" →
        ResolvePlayableURL co stream = .error .noPlayableSource) ∧
      (magnetOf stream ≠ "" →
        (rdEnabled co = false →
          ResolvePlayableURL co stream = .ok (magnetOf stream)) ∧
        (rdEnabled co = true →
          (∀ e, (resolveMagnetM co.rd (magnetOf stream) stream.fileIdx).1
              = .error e →
            ResolvePlayableURL co stream = .ok (magnetOf stream)) ∧
          (∀ link, (resolveMagnetM co.rd (magnetOf stream) stream.fileIdx).1
              = .ok link →
            ResolvePlayableURL co stream = .ok link)))) := by
  constructor
  · intro hhttp
    have hne : stream.url ≠ "" := url_ne_of_pfx hhttp (by decide)
    refine ⟨fun hdis => ?_, fun hen => ⟨fun e he => ?_, fun link hl => ?_⟩⟩
    · unfold ResolvePlayableURL
      rw [if_pos ⟨hne, hhttp⟩]
      simp [hdis]
    · unfold ResolvePlayableURL
      rw [if_pos ⟨hne, hhttp⟩]
      simp [hen, he]
    · unfold ResolvePlayableURL
      rw [if_pos ⟨hne, hhttp⟩]
      simp [hen, hl]
  · intro hhttp
    have hcond : ¬(stream.url ≠ "" ∧
        goHasPfx (goToLower stream.url) "http" = true) := by
      rintro ⟨-, h⟩
      rw [hhttp] at h
      cases h
    refine ⟨fun hmag => ?_, fun hmag =>
      ⟨fun hdis => ?_, fun hen => ⟨fun e he => ?_, fun link hl => ?_⟩⟩⟩
    · unfold ResolvePlayableURL
      rw [if_neg hcond]
      simp [hmag]
    · unfold ResolvePlayableURL
      rw [if_neg hcond]
      simp [hmag, hdis]
    · unfold ResolvePlayableURL
      rw [if_neg hcond]
      simp [hmag, hen, he]
    · unfold ResolvePlayableURL
      rw [if_neg hcond]
      simp [hmag, hen, hl]

theorem resolve_ok_of_http (co : ClientOracle) (stream : Stream)
    (hhttp : goHasPfx (goToLower stream.url) "http" = true) :
    ∃ v, ResolvePlayableURL co stream = .ok v := by
  obtain ⟨hd, he⟩ := (resolve_char co stream).1 hhttp
  cases hen : rdEnabled co with
  | false => exact ⟨_, hd hen⟩
  | true =>
    cases hu : unrestrictLinkM co.rd stream.url with
    | error e => exact ⟨_, (he hen).1 e hu⟩
    | ok l => exact ⟨_, (he hen).2 l hu⟩

theorem resolve_ok_of_magnet (co : ClientOracle) (stream : Stream)
    (hhttp : goHasPfx (goToLower stream.url) "http" = false)
    (hmag : magnetOf stream ≠ "") :
    ∃ v, ResolvePlayableURL co stream = .ok v := by
  obtain ⟨hd, he⟩ := ((resolve_char co stream).2 hhttp).2 hmag
  cases hen : rdEnabled co with
  | false => exact ⟨_, hd hen⟩
  | true =>
    cases hu : (resolveMagnetM co.rd (magnetOf stream) stream.fileIdx).1 with
    | error e => exact ⟨_, (he hen).1 e hu⟩
    | ok l => exact ⟨_, (he hen).2 l hu⟩

theorem resolve_error_inv (co : ClientOracle) (stream : Stream) (e : RDError)
    (herr : ResolvePlayableURL co stream = .error e) :
    e = .noPlayableSource ∧
    goHasPfx (goToLower stream.url) "http" = false ∧
    magnetOf stream = "" := by
  by_cases hhttp : goHasPfx (goToLower stream.url) "http" = true
  · obtain ⟨v, hv⟩ := resolve_ok_of_http co stream hhttp
    rw [hv] at herr
    cases herr
  · have hhttp' : goHasPfx (goToLower stream.url) "http" = false := by
      simpa using hhttp
    by_cases hmag : magnetOf stream = ""
    · have hres := ((resolve_char co stream).2 hhttp').1 hmag
      rw [hres] at herr
      injection herr with h
      exact ⟨h.symm, hhttp', hmag⟩
    · obtain ⟨v, hv⟩ := resolve_ok_of_magnet co stream hhttp' hmag
      rw [hv] at herr
      cases herr

theorem magnetOf_empty_iff (stream : Stream) :
    magnetOf stream = "" ↔
      goHasPfx (goToLower stream.url) "magnet:" = false ∧
      stream.infoHash = "" := by
  unfold magnetOf
  by_cases hm : goHasPfx (goToLower stream.url) "magnet:" = true
  · rw [if_pos hm]
    have hne : stream.url ≠ "" := url_ne_of_pfx hm (by decide)
    simp [hne, hm]
  · have hm' : goHasPfx (goToLower stream.url) "magnet:" = false := by
      simpa using hm
    rw [if_neg hm]
    simp only [hm', true_and]
    constructor
    · intro h
      by_contra hih
      exact buildMagnet_ne_empty hih h
    · intro h
      unfold buildMagnet
      rw [if_pos h]

/-- Claim C4: the no-playable-source error is the sole hard failure of
`ResolvePlayableURL`: it occurs exactly when the raw URL has neither
an `http` nor a `magnet:` prefix (case-insensitively) and the
info-hash is empty; every other stream resolves with no error
whatever the unlock oracle does; in particular an all-empty
descriptor fails this way. -/
theorem C4_no_playable_source (co : ClientOracle) (stream : Stream) :
    (ResolvePlayableURL co stream = .error .noPlayableSource ↔
      goHasPfx (goToLower stream.url) "http" = false ∧
      goHasPfx (goToLower stream.url) "magnet:" = false ∧
      stream.infoHash = "") ∧
    (∀ e, ResolvePlayableURL co stream = .error e →
      e = .noPlayableSource) ∧
    (¬(goHasPfx (goToLower stream.url) "http" = false ∧
        goHasPfx (goToLower stream.url) "magnet:" = false ∧
        stream.infoHash = "") →
      ∃ v, ResolvePlayableURL co stream = .ok v) ∧
    (stream.url = "" → stream.infoHash = "" →
      ResolvePlayableURL co stream = .error .noPlayableSource) := by
  refine ⟨⟨fun herr => ?_, fun ⟨h1, h2, h3⟩ => ?_⟩,
    fun e herr => (resolve_error_inv co stream e herr).1,
    fun hcond => ?_, fun hurl hih => ?_⟩
  · obtain ⟨-, hhttp, hmag⟩ := resolve_error_inv co stream _ herr
    obtain ⟨hm, hih⟩ := (magnetOf_empty_iff stream).mp hmag
    exact ⟨hhttp, hm, hih⟩
  · exact ((resolve_char co stream).2 h1).1
      ((magnetOf_empty_iff stream).mpr ⟨h2, h3⟩)
  · by_cases hhttp : goHasPfx (goToLower stream.url) "http" = true
    · exact resolve_ok_of_http co stream hhttp
    · have hhttp' : goHasPfx (goToLower stream.url) "http" = false := by
        simpa using hhttp
      have hmag : magnetOf stream ≠ "" := by
        intro hm
        obtain ⟨h2, h3⟩ := (magnetOf_empty_iff stream).mp hm
        exact hcond ⟨hhttp', h2, h3⟩
      exact resolve_ok_of_magnet co stream hhttp' hmag
  · have h1 : goHasPfx (goToLower stream.url) "http" = false := by
      rw [hurl]; decide
    have h2 : goHasPfx (goToLower stream.url) "magnet:" = false := by
      rw [hurl]; decide
    exact ((resolve_char co stream).2 h1).1
      ((magnetOf_empty_iff stream).mpr ⟨h2, hih⟩)

/-- Claim C4, witness: the all-empty descriptor fails with the
no-playable-source error under a trivial oracle. -/
theorem C4_no_playable_source_witness :
    ResolvePlayableURL
        ⟨"", ⟨.ok "", fun _ => .ok ⟨"", [], []⟩, some ⟨200, []⟩, .ok "",
          fun _ => false⟩⟩
        ⟨"", "", "", "", none, []⟩ =
      .error .noPlayableSource :=
  (C4_no_playable_source
    ⟨"", ⟨.ok "", fun _ => .ok ⟨"", [], []⟩, some ⟨200, []⟩, .ok "",
      fun _ => false⟩⟩
    ⟨"", "", "", "", none, []⟩).2.2.2 rfl rfl

/-- Claim C1: the never-block fallback: a direct `http` URL is
returned unchanged when unlock is disabled, and with unlock enabled
the unrestricted link is returned on success while any unrestrict
failure falls back to the raw URL with no error; a stream with a
non-empty magnet string returns the magnet itself when unlock is
disabled, and with unlock enabled any failure of the unlock pipeline
falls back to the magnet unchanged with no error. -/
theorem C1_never_block_fallback (co : ClientOracle) (stream : Stream) :
    (goHasPfx (goToLower stream.url) "http" = true →
      (rdEnabled co = false → ResolvePlayableURL co stream = .ok stream.url) ∧
      (rdEnabled co = true →
        (∀ link, unrestrictLinkM co.rd stream.url = .ok link →
          ResolvePlayableURL co stream = .ok link) ∧
        (∀ e, unrestrictLinkM co.rd stream.url = .error e →
          ResolvePlayableURL co stream = .ok stream.url))) ∧
    (goHasPfx (goToLower stream.url) "http" = false →
      magnetOf stream ≠ "" →
      (rdEnabled co = false →
        ResolvePlayableURL co stream = .ok (magnetOf stream)) ∧
      (rdEnabled co = true →
        ∀ e, (resolveMagnetM co.rd (magnetOf stream) stream.fileIdx).1
            = .error e →
          ResolvePlayableURL co stream = .ok (magnetOf stream))) := by
  refine ⟨fun hhttp => ?_, fun hhttp hmag => ?_⟩
  · obtain ⟨hd, he⟩ := (resolve_char co stream).1 hhttp
    exact ⟨hd, fun hen => ⟨(he hen).2, (he hen).1⟩⟩
  · obtain ⟨hd, he⟩ := ((resolve_char co stream).2 hhttp).2 hmag
    exact ⟨hd, fun hen => (he hen).1⟩

/-- Claim C1, witness: with unlock disabled a direct URL passes
through unchanged. -/
theorem C1_never_block_fallback_witness :
    goHasPfx (goToLower "http://x") "http" = true ∧
    ResolvePlayableURL
        ⟨"", ⟨.ok "", fun _ => .ok ⟨"", [], []⟩, some ⟨200, []⟩, .ok "",
          fun _ => false⟩⟩
        ⟨"", "", "http://x", "", none, []⟩ =
      .ok "http://x" := by
  refine ⟨by decide, ?_⟩
  exact ((C1_never_block_fallback
    ⟨"", ⟨.ok "", fun _ => .ok ⟨"", [], []⟩, some ⟨200, []⟩, .ok "",
      fun _ => false⟩⟩
    ⟨"", "", "http://x", "", none, []⟩).1 (by decide)).1 rfl

/-- Claim C6, counterexample: a transport-level failure of the select
request — `http.Do` errors and no response is delivered at all — also
fails the select operation, so a select with a non-zero file id does
not fail only when the remote service answers non-2xx. -/
theorem C6_select_counterexample :
    (⟨.ok "id1", fun _ => .ok ⟨"", [], []⟩, none, .ok "",
        fun _ => false⟩ : RDOracle).selectResp = none ∧
    selectFilesM
        ⟨.ok "id1", fun _ => .ok ⟨"", [], []⟩, none, .ok "",
          fun _ => false⟩ [1] = .error .transport :=
  ⟨rfl, rfl⟩

/-- Claim C6, amended: when the picked file id is the 0 sentinel the
attempt fails with the invalid-selection error and no select request
is issued; a select request with a (single, non-zero) file id fails
only when the request itself fails at the transport level (no
response delivered) or the remote service answers outside the 2xx
range. -/
theorem C6_select_guard (o : RDOracle) (magnet : String)
    (fileIdx : Option Int) :
    (∀ tid info polls₁, addMagnetM o magnet = .ok tid →
      waitForTorrentInfo o 0 = (.ok info, polls₁) →
      pickFileID info fileIdx = 0 →
      (resolveMagnetM o magnet fileIdx).1 = .error .pickFailed ∧
      (resolveMagnetM o magnet fileIdx).2.selectCalls = []) ∧
    (∀ fid e, selectFilesM o [fid] = .error e →
      (o.selectResp = none ∧ e = .transport) ∨
      (∃ resp, o.selectResp = some resp ∧
        ¬(200 ≤ resp.status ∧ resp.status ≤ 299))) := by
  constructor
  · intro tid info polls₁ ha hw hp
    unfold resolveMagnetM
    rw [ha, hw]
    simp [hp]
  · intro fid e hs
    unfold selectFilesM at hs
    simp at hs
    cases hsr : o.selectResp with
    | none =>
      rw [hsr] at hs
      injection hs with h
      exact Or.inl ⟨rfl, h.symm⟩
    | some resp =>
      rw [hsr] at hs
      have hs' : rdStatusCheck resp = .error e := hs
      unfold rdStatusCheck at hs'
      by_cases h3 : resp.status ≥ 300
      · exact Or.inr ⟨resp, rfl, by omega⟩
      · rw [if_neg h3] at hs'
        cases hs'

/-- Claim C6, witness: a manifest whose only file carries remote id 0
makes the attempt fail with the invalid-selection error and no select
request. -/
theorem C6_select_guard_witness :
    (resolveMagnetM
        ⟨.ok "id1", fun _ => .ok ⟨"", [⟨0, "a.mkv", 10⟩], []⟩,
          some ⟨200, []⟩, .ok "", fun _ => false⟩ "m" none).1
      = .error .pickFailed ∧
    (resolveMagnetM
        ⟨.ok "id1", fun _ => .ok ⟨"", [⟨0, "a.mkv", 10⟩], []⟩,
          some ⟨200, []⟩, .ok "", fun _ => false⟩ "m" none).2.selectCalls
      = [] :=
  (C6_select_guard
    ⟨.ok "id1", fun _ => .ok ⟨"", [⟨0, "a.mkv", 10⟩], []⟩,
      some ⟨200, []⟩, .ok "", fun _ => false⟩ "m" none).1
    "id1" ⟨"", [⟨0, "a.mkv", 10⟩], []⟩ 1 rfl rfl rfl

/-- Claim C7: per resolution attempt exactly one register request,
at most one select request carrying exactly one file id, a select
request only after a successful register and metadata wait that
produced a non-zero picked id, and at most one unrestrict request. -/
theorem C7_single_register_select (o : RDOracle) (magnet : String)
    (fileIdx : Option Int) :
    (resolveMagnetM o magnet fileIdx).2.addCount = 1 ∧
    (resolveMagnetM o magnet fileIdx).2.unrestrictCount ≤ 1 ∧
    (resolveMagnetM o magnet fileIdx).2.selectCalls.length ≤ 1 ∧
    (∀ ids ∈ (resolveMagnetM o magnet fileIdx).2.selectCalls,
      ids.length = 1) ∧
    ((resolveMagnetM o magnet fileIdx).2.selectCalls ≠ [] →
      ∃ torrentID info,
        addMagnetM o magnet = .ok torrentID ∧
        (waitForTorrentInfo o 0).1 = .ok info ∧
        pickFileID info fileIdx ≠ 0 ∧
        (resolveMagnetM o magnet fileIdx).2.selectCalls
          = [[pickFileID info fileIdx]]) := by
  unfold resolveMagnetM
  cases ha : addMagnetM o magnet with
  | error e => simp
  | ok tid =>
    cases hw : waitForTorrentInfo o 0 with
    | mk w1 polls₁ =>
      cases w1 with
      | error e => simp
      | ok info =>
        by_cases hpick : pickFileID info fileIdx = 0
        · simp [hpick]
        · cases hs : selectFilesM o [pickFileID info fileIdx] with
          | error e => simp [hpick, hs]
          | ok u =>
            cases hr : waitForReadyLinks o polls₁ with
            | mk r1 polls₂ =>
              cases r1 with
              | error e => simp [hpick, hs, hr]
              | ok ready =>
                cases hl : ready.links with
                | nil => simp [hpick, hs, hr, hl]
                | cons link rest =>
                  cases hu : unrestrictLinkM o link with
                  | error e => simp [hpick, hs, hr, hl, hu]
                  | ok d => simp [hpick, hs, hr, hl, hu]

/-- Claim C7, witness: a fully successful attempt issues exactly one
register, one single-id select and one unrestrict request. -/
theorem C7_single_register_select_witness :
    (resolveMagnetM
        ⟨.ok "id1", fun _ => .ok ⟨"", [⟨1, "a.mkv", 10⟩], ["l1"]⟩,
          some ⟨200, []⟩, .ok "d1", fun _ => false⟩ "m" none).2.selectCalls
      = [[1]] :=
  have h := C7_single_register_select
    ⟨.ok "id1", fun _ => .ok ⟨"", [⟨1, "a.mkv", 10⟩], ["l1"]⟩,
      some ⟨200, []⟩, .ok "d1", fun _ => false⟩ "m" none
  by
    obtain ⟨tid, info, -, hinfo, -, hcalls⟩ := h.2.2.2.2 (by decide)
    rw [hcalls]
    have : info = ⟨"", [⟨1, "a.mkv", 10⟩], ["l1"]⟩ := by
      have h1 : (waitForTorrentInfo
          ⟨.ok "id1", fun _ => .ok ⟨"", [⟨1, "a.mkv", 10⟩], ["l1"]⟩,
            some ⟨200, []⟩, .ok "d1", fun _ => false⟩ 0).1
          = .ok ⟨"", [⟨1, "a.mkv", 10⟩], ["l1"]⟩ := rfl
      rw [h1] at hinfo
      injection hinfo with h2
      exact h2.symm
    rw [this]
    decide

end Tuiflix
